import Mathlib

/-!
Verification of the instance-registry and task layer of the rocksdb
binding (src/lib.rs).  Rust strings and byte vectors are modelled as
lists of byte values; the process-wide `DATABASE_INSTANCES` map and the
`DB_ID` counter become an explicit state record threaded through each
task's `compute` function.  The embedded storage engine itself is an
external collaborator; its primitives (`get`, `put`, `delete`, ordered
iteration, `open`, `destroy`) are modelled from the spec, and the
possibility of an engine-reported error is passed to each `compute`
function as an explicit argument.  A Rust panic coming from `.unwrap()`
(a process abort) is a distinct outcome from a returned `napi::Error`.
-/

/-- Raw bytes of a Rust `String` or `Vec<u8>`; each element is a byte value. -/
abbrev Bytes := List Nat

/-- The key-value contents of one open engine session.
Modelled from the spec: the embedded storage engine is an external
collaborator supplying atomic single-key get/put/delete and ordered
iteration (spec sections 1 and 2, glossary). -/
abbrev Store := List (Bytes × Bytes)

/-- Mirrors `Options` (src/lib.rs lines 22-26). -/
structure RocksOptions where
  create_if_missing : Bool
  keep_log_file_num : Nat
deriving DecidableEq

/-- Mirrors `Database` (src/lib.rs lines 16-20): one open engine session
plus its open-time options and filesystem path. -/
structure Database where
  store : Store
  db_opts : RocksOptions
  filepath : Bytes
deriving DecidableEq

/-- The shared mutable state: the registry `DATABASE_INSTANCES`
(src/lib.rs line 30, an association list standing for the `HashMap`)
and `nextId`, the current value of the `AtomicU32` counter `DB_ID`
(src/lib.rs line 28). -/
structure SysState where
  registry : List (Nat × Database)
  nextId : Nat
deriving DecidableEq

/-- `2 ^ 32`: the modulus of the `AtomicU32` counter `DB_ID`; its
`fetch_add` wraps around on overflow. -/
def U32 : Nat := 4294967296

/-- Result of one task `compute` call: `ok` mirrors `Ok`, `err` a
returned `napi::Error` (typed, recoverable), and `fatal` a Rust panic
raised by `.unwrap()` (a process abort, not recoverable). -/
inductive Outcome (α : Type) where
  | ok : α → Outcome α
  | err : String → Outcome α
  | fatal : String → Outcome α
deriving DecidableEq

/-- `HashMap::get` on the registry (`dbs.get(&db_id)`). -/
def regGet : List (Nat × Database) → Nat → Option Database
  | [], _ => none
  | e :: r, h => if e.1 = h then some e.2 else regGet r h

/-- `HashMap::remove` on the registry (`dbs.remove(&db_id)`,
src/lib.rs line 247). -/
def regRemove : List (Nat × Database) → Nat → List (Nat × Database)
  | [], _ => []
  | e :: r, h => if e.1 = h then regRemove r h else e :: regRemove r h

/-- `HashMap::insert` on the registry (`dbs.insert(db_id, db_instance)`,
src/lib.rs line 57); inserting over an existing key replaces it. -/
def regInsert (r : List (Nat × Database)) (h : Nat) (db : Database) :
    List (Nat × Database) :=
  (h, db) :: regRemove r h

/-- Mutation of the engine session behind a live registry entry (the
Rust code writes through the borrowed `Database`; the set of entries is
untouched). -/
def regUpdate (r : List (Nat × Database)) (h : Nat) (db : Database) :
    List (Nat × Database) :=
  r.map (fun e => if e.1 = h then (e.1, db) else e)

/-- Modelled from the spec: the engine's exact-key lookup
(`rocksdb::DB::get`), an external collaborator (spec sections 1, 4.3). -/
def engineGet : Store → Bytes → Option Bytes
  | [], _ => none
  | e :: st, k => if e.1 = k then some e.2 else engineGet st k

/-- Modelled from the spec: the engine's single-key write
(`rocksdb::DB::put`), overwriting any existing value for the key
(spec section 4.4). -/
def enginePut (st : Store) (k v : Bytes) : Store :=
  (k, v) :: st.filter (fun e => !(decide (e.1 = k)))

/-- Modelled from the spec: the engine's single-key delete
(`rocksdb::DB::delete`); deleting an absent key is a no-op
(spec section 4.6). -/
def engineDelete (st : Store) (k : Bytes) : Store :=
  st.filter (fun e => !(decide (e.1 = k)))

/-- Strict bytewise lexicographic order on byte strings, with a proper
initial segment sorting first.  Modelled from the spec: the engine's
natural iteration order is ascending lexicographic byte order
(spec section 4.5). -/
def lexLt : Bytes → Bytes → Bool
  | _, [] => false
  | [], _ :: _ => true
  | a :: as, b :: bs =>
    if a < b then true
    else if a = b then lexLt as bs
    else false

/-- Reflexive closure of `lexLt`. -/
def lexLe (a b : Bytes) : Bool :=
  if a = b then true else lexLt a b

/-- `lexLe` as a relation, for use with `List.insertionSort`. -/
def LexLeR (a b : Bytes) : Prop := lexLe a b = true

instance : DecidableRel LexLeR :=
  fun a b => inferInstanceAs (Decidable (lexLe a b = true))

/-- Modelled from the spec: the engine's full forward scan
(`db.iterator(rocksdb::IteratorMode::Start)`, src/lib.rs line 161)
yields the stored keys in ascending lexicographic byte order
(spec section 4.5). -/
def scanKeys (st : Store) : List Bytes :=
  List.insertionSort LexLeR (st.map (fun e => e.1))

/-- Whether a byte is a UTF-8 continuation byte. -/
def isCont (b : Nat) : Bool := decide (128 ≤ b ∧ b ≤ 191)

/-- UTF-8 validity of a byte sequence, exactly the check performed by
Rust `String::from_utf8` (relied on at src/lib.rs line 90). -/
def utf8Valid : Bytes → Bool
  | [] => true
  | b :: rest =>
    if b < 128 then utf8Valid rest
    else if b < 194 then false
    else if b ≤ 223 then
      match rest with
      | c :: r => isCont c && utf8Valid r
      | [] => false
    else if b ≤ 239 then
      match rest with
      | c1 :: c2 :: r =>
        (if b = 224 then decide (160 ≤ c1 ∧ c1 ≤ 191)
         else if b = 237 then decide (128 ≤ c1 ∧ c1 ≤ 159)
         else isCont c1) && isCont c2 && utf8Valid r
      | _ => false
    else if b ≤ 244 then
      match rest with
      | c1 :: c2 :: c3 :: r =>
        (if b = 240 then decide (144 ≤ c1 ∧ c1 ≤ 191)
         else if b = 244 then decide (128 ≤ c1 ∧ c1 ≤ 143)
         else isCont c1) && isCont c2 && isCont c3 && utf8Valid r
      | _ => false
    else false

/-- UTF-8 bytes of the Unicode scalar produced by Rust `u8 as char`
(a code point equal to the byte value, src/lib.rs line 173). -/
def byteToCharUtf8 (b : Nat) : Bytes :=
  if b < 128 then [b] else [192 + b / 64, 128 + b % 64]

/-- The byte-per-character decoding `get_keys` applies to each raw key
(`key.to_vec().into_iter().map(|c| c as char).collect()`,
src/lib.rs line 173), expressed as the UTF-8 bytes of the resulting
Rust `String`. -/
def latin1Decode (k : Bytes) : Bytes :=
  (k.map byteToCharUtf8).flatten

/-- `key.starts_with(p.as_bytes())` (src/lib.rs line 168). -/
def bytesStartsWith : Bytes → Bytes → Bool
  | [], _ => true
  | _ :: _, [] => false
  | p :: ps, k :: ks => if p = k then bytesStartsWith ps ks else false

/-- `ConnectTask::compute` (src/lib.rs lines 43-59).  `openRes` is the
outcome of the external `rocksdb::DB::open` call: `Except.error` is an
engine open failure (the code calls `.unwrap()` on it, line 48), and
`Except.ok st` a successful open of a store currently holding `st`.
On success the counter value is issued as the handle (`fetch_add`
returns the previous value and wraps on overflow) and the instance is
inserted into the registry. -/
def connectCompute (s : SysState) (openRes : Except String Store)
    (path : Bytes) (opts : RocksOptions) : Outcome Nat × SysState :=
  match openRes with
  | Except.error e => (Outcome.fatal e, s)
  | Except.ok st =>
    (Outcome.ok s.nextId,
      { registry :=
          regInsert s.registry s.nextId
            { store := st, db_opts := opts, filepath := path },
        nextId := (s.nextId + 1) % U32 })

/-- `GetItemTask::compute` (src/lib.rs lines 85-97).  An absent handle
hits `dbs.get(&db_id).unwrap()` (line 87).  `fault` injects the engine
error arm of `db.db.get` (returned as a `napi::Error`, lines 92-95);
`none` means the engine answered from the store contents, in which case
a present value goes through `String::from_utf8(value).unwrap()`
(line 90). -/
def getItemCompute (s : SysState) (h : Nat) (key : Bytes)
    (fault : Option String) : Outcome (Option Bytes) × SysState :=
  match regGet s.registry h with
  | none => (Outcome.fatal "unwrap on None", s)
  | some db =>
    match fault with
    | some e => (Outcome.err e, s)
    | none =>
      match engineGet db.store key with
      | some v =>
        if utf8Valid v then (Outcome.ok (some v), s)
        else (Outcome.fatal "from_utf8 unwrap", s)
      | none => (Outcome.ok none, s)

/-- `SetItemTask::compute` (src/lib.rs lines 124-130).  An absent handle
hits `dbs.get(&db_id).unwrap()` (line 126); an engine write error hits
`db.db.put(&self.key, &self.value).unwrap()` (line 128). -/
def setItemCompute (s : SysState) (h : Nat) (key value : Bytes)
    (fault : Option String) : Outcome Unit × SysState :=
  match regGet s.registry h with
  | none => (Outcome.fatal "unwrap on None", s)
  | some db =>
    match fault with
    | some e => (Outcome.fatal e, s)
    | none =>
      (Outcome.ok (),
        { s with
            registry :=
              regUpdate s.registry h
                { db with store := enginePut db.store key value } })

/-- `GetKeysTask::compute` (src/lib.rs lines 157-185).  An absent handle
hits `dbs.get(&db_id).unwrap()` (line 159).  The scan visits every key
in ascending byte order; a per-key filter keeps the keys starting with
the requested byte string (lines 167-171); each kept key is decoded
byte-per-character (line 173).  An iterator error is returned as a
`napi::Error` (lines 175-180). -/
def getKeysCompute (s : SysState) (h : Nat) (pre : Option Bytes)
    (fault : Option String) : Outcome (List Bytes) × SysState :=
  match regGet s.registry h with
  | none => (Outcome.fatal "unwrap on None", s)
  | some db =>
    match fault with
    | some e => (Outcome.err e, s)
    | none =>
      (Outcome.ok
        (((scanKeys db.store).filter (fun k =>
            match pre with
            | some p => bytesStartsWith p k
            | none => true)).map latin1Decode), s)

/-- `RemoveItemTask::compute` (src/lib.rs lines 211-217).  An absent
handle hits `dbs.get(&db_id).unwrap()` (line 213); an engine delete
error hits `db.db.delete(&self.key).unwrap()` (line 215). -/
def removeItemCompute (s : SysState) (h : Nat) (key : Bytes)
    (fault : Option String) : Outcome Unit × SysState :=
  match regGet s.registry h with
  | none => (Outcome.fatal "unwrap on None", s)
  | some db =>
    match fault with
    | some e => (Outcome.fatal e, s)
    | none =>
      (Outcome.ok (),
        { s with
            registry :=
              regUpdate s.registry h
                { db with store := engineDelete db.store key } })

/-- `CloseTask::compute` (src/lib.rs lines 242-249).  An absent handle
hits `dbs.get(&db_id).unwrap()` (line 244).  `destroyRes` is the outcome
of the external `rocksdb::DB::destroy` call (line 246); the code
discards it (`let _ = ...`) and removes the registry entry either way
(line 247). -/
def closeCompute (s : SysState) (h : Nat) (destroyRes : Option String) :
    Outcome Unit × SysState :=
  match regGet s.registry h with
  | none => (Outcome.fatal "unwrap on None", s)
  | some _ =>
    match destroyRes with
    | _ => (Outcome.ok (), { s with registry := regRemove s.registry h })

/-- One submitted operation together with the behavior of the external
engine call it performs. -/
inductive Op where
  | connect (openRes : Except String Store) (path : Bytes) (opts : RocksOptions)
  | getItem (h : Nat) (key : Bytes) (fault : Option String)
  | setItem (h : Nat) (key value : Bytes) (fault : Option String)
  | getKeys (h : Nat) (pre : Option Bytes) (fault : Option String)
  | removeItem (h : Nat) (key : Bytes) (fault : Option String)
  | close (h : Nat) (destroyRes : Option String)

/-- The state transition of one operation's `compute` phase. -/
def applyOp (s : SysState) : Op → SysState
  | Op.connect res p o => (connectCompute s res p o).2
  | Op.getItem h k f => (getItemCompute s h k f).2
  | Op.setItem h k v f => (setItemCompute s h k v f).2
  | Op.getKeys h pre f => (getKeysCompute s h pre f).2
  | Op.removeItem h k f => (removeItemCompute s h k f).2
  | Op.close h f => (closeCompute s h f).2

/-- Run a sequence of operations, threading the shared state. -/
def runOps (s : SysState) : List Op → SysState
  | [] => s
  | op :: tr => runOps (applyOp s op) tr

/-- Whether an operation is a successful `connect` (the only kind of
operation that reaches `DB_ID.fetch_add` and inserts an entry). -/
def isOkConnect : Op → Bool
  | Op.connect (Except.ok _) _ _ => true
  | _ => false

/-- Number of successful connects in an operation sequence. -/
def connectCount (tr : List Op) : Nat := (tr.filter isOkConnect).length

/-- The handles issued by the successful connects of a run, in order. -/
def issuedIds (s : SysState) : List Op → List Nat
  | [] => []
  | op :: tr =>
    if isOkConnect op then s.nextId :: issuedIds (applyOp s op) tr
    else issuedIds (applyOp s op) tr

/-- Whether an operation writes to key `k` of handle `h` or closes `h`. -/
def touchesKey (h : Nat) (k : Bytes) : Op → Bool
  | Op.setItem h2 k2 _ _ => decide (h2 = h) && decide (k2 = k)
  | Op.removeItem h2 k2 _ => decide (h2 = h) && decide (k2 = k)
  | Op.close h2 _ => decide (h2 = h)
  | _ => false

/-- Handle `h` is live and its store maps `k` to `v`. -/
def HoldsVal (h : Nat) (k v : Bytes) (s : SysState) : Prop :=
  ∃ db, regGet s.registry h = some db ∧ engineGet db.store k = some v

/-- The handles currently present in the registry, in entry order. -/
def regKeys (s : SysState) : List Nat := s.registry.map (fun e => e.1)

/-- Options used by the concrete examples. -/
def optsA : RocksOptions := { create_if_missing := true, keep_log_file_num := 1 }

/-- An open instance with an empty store. -/
def dbEmpty : Database := { store := [], db_opts := optsA, filepath := [100] }

/-- An instance whose stored value is not valid UTF-8. -/
def dbBadVal : Database :=
  { store := [([107], [255])], db_opts := optsA, filepath := [] }

/-- An instance with a two-byte UTF-8 key (the letter e with acute
accent, bytes 195 169). -/
def dbBadKey : Database :=
  { store := [([195, 169], [49])], db_opts := optsA, filepath := [] }

/-- A state with one live handle 0 over an empty store. -/
def s1 : SysState := { registry := [(0, dbEmpty)], nextId := 1 }

/-- A state with one live handle 0 over `dbBadVal`. -/
def sBadVal : SysState := { registry := [(0, dbBadVal)], nextId := 1 }

/-- A state with one live handle 0 over `dbBadKey`. -/
def sBadKey : SysState := { registry := [(0, dbBadKey)], nextId := 1 }

/-- The state at process start: empty registry, counter 0. -/
def initState : SysState := { registry := [], nextId := 0 }

/-- One successful `connect` at an empty path with `optsA`. -/
def connectStep (s : SysState) : SysState :=
  (connectCompute s (Except.ok []) [] optsA).2

/-- The state after one `connect` (issuing handle 0) and one `close 0`
from the initial state. -/
def sClosed : SysState := (closeCompute (connectStep initState) 0 none).2

/-- An instance with two single-byte keys, stored out of order. -/
def dbTwo : Database :=
  { store := [([98], [2]), ([97], [1])], db_opts := optsA, filepath := [] }

/-- A state with one live handle 0 over `dbTwo`. -/
def sTwo : SysState := { registry := [(0, dbTwo)], nextId := 1 }

/-- Example operation sequence: connect, close the issued handle,
connect again. -/
def trConnCloseConn : List Op :=
  [Op.connect (Except.ok []) [] optsA, Op.close 0 none,
   Op.connect (Except.ok []) [] optsA]

/-- Example operation sequence: one write to a different key of the
same handle. -/
def trOtherKey : List Op := [Op.setItem 0 [98] [99] none]

/-- Example operation sequence: one successful connect. -/
def trOneConn : List Op := [Op.connect (Except.ok []) [] optsA]

/-! ### Registry and engine lemmas -/

theorem regGet_regRemove (r : List (Nat × Database)) (h h2 : Nat) :
    regGet (regRemove r h2) h = if h = h2 then none else regGet r h := by
  induction r with
  | nil => simp [regGet, regRemove]
  | cons e r ih =>
    obtain ⟨a, d⟩ := e
    by_cases ha : a = h2
    · subst ha
      by_cases hh : h = a
      · subst hh; simp [regRemove, regGet, ih]
      · simp [regRemove, regGet, ih, hh, Ne.symm hh]
    · simp only [regRemove, if_neg ha]
      by_cases hh : a = h
      · subst hh
        simp [regGet, ha]
      · simp [regGet, hh, ih]

theorem regGet_regInsert (r : List (Nat × Database)) (h h2 : Nat) (db : Database) :
    regGet (regInsert r h2 db) h = if h = h2 then some db else regGet r h := by
  by_cases hh : h = h2
  · subst hh; simp [regInsert, regGet]
  · simp [regInsert, regGet, Ne.symm hh, regGet_regRemove, hh]

theorem regGet_regUpdate (r : List (Nat × Database)) (h h2 : Nat) (db : Database) :
    regGet (regUpdate r h2 db) h =
      if h = h2 then (regGet r h).map (fun _ => db) else regGet r h := by
  induction r with
  | nil => simp [regGet, regUpdate]
  | cons e r ih =>
    obtain ⟨a, d⟩ := e
    simp only [regUpdate, List.map_cons] at ih ⊢
    by_cases ha : a = h2
    · subst ha
      by_cases hh : h = a
      · subst hh; simp [regGet, ih]
      · simp [regGet, hh, Ne.symm hh, ih]
    · by_cases hh : a = h
      · subst hh
        simp [regGet, ha, Ne.symm ha]
      · simp [regGet, ha, hh, ih]

theorem regRemove_of_none (r : List (Nat × Database)) (h : Nat)
    (hr : regGet r h = none) : regRemove r h = r := by
  induction r with
  | nil => rfl
  | cons e r ih =>
    obtain ⟨a, d⟩ := e
    by_cases ha : a = h
    · simp [regGet, ha] at hr
    · simp [regGet, ha] at hr
      simp [regRemove, ha, ih hr]

theorem regKeys_regUpdate (r : List (Nat × Database)) (h : Nat) (db : Database) :
    (regUpdate r h db).map (fun e => e.1) = r.map (fun e => e.1) := by
  unfold regUpdate
  rw [List.map_map]
  apply List.map_congr_left
  intro e _
  by_cases ha : e.1 = h <;> simp [ha]

theorem engineGet_filterNe (st : Store) (k k2 : Bytes) (hk : ¬ k = k2) :
    engineGet (st.filter (fun e => !(decide (e.1 = k2)))) k = engineGet st k := by
  induction st with
  | nil => rfl
  | cons e st ih =>
    obtain ⟨a, d⟩ := e
    by_cases ha : a = k2
    · subst ha
      have hak : ¬ a = k := fun hc => hk (hc.symm)
      simp [List.filter_cons, engineGet, hak, ih]
    · by_cases h2 : a = k
      · simp [List.filter_cons, ha, engineGet, h2, hk]
      · simp [List.filter_cons, ha, engineGet, h2, ih]

theorem engineGet_filterSelf (st : Store) (k : Bytes) :
    engineGet (st.filter (fun e => !(decide (e.1 = k)))) k = none := by
  induction st with
  | nil => rfl
  | cons e st ih =>
    obtain ⟨a, d⟩ := e
    by_cases ha : a = k
    · subst ha; simpa [List.filter_cons] using ih
    · simpa [List.filter_cons, ha, engineGet] using ih

theorem engineGet_enginePut (st : Store) (k k2 v : Bytes) :
    engineGet (enginePut st k2 v) k = if k = k2 then some v else engineGet st k := by
  by_cases hk : k = k2
  · subst hk; simp [enginePut, engineGet]
  · simp [enginePut, engineGet, Ne.symm hk,
      engineGet_filterNe st k k2 hk, hk]

theorem engineGet_engineDelete (st : Store) (k k2 : Bytes) :
    engineGet (engineDelete st k2) k = if k = k2 then none else engineGet st k := by
  by_cases hk : k = k2
  · subst hk; simp [engineDelete, engineGet_filterSelf]
  · simp [engineDelete, hk, engineGet_filterNe st k k2 hk]

/-! ### Per-operation state facts -/

theorem getItem_state (s : SysState) (h : Nat) (k : Bytes) (f : Option String) :
    (getItemCompute s h k f).2 = s := by
  rcases hr : regGet s.registry h with _ | db
  · simp [getItemCompute, hr]
  · rcases f with _ | e
    · rcases hg : engineGet db.store k with _ | v
      · simp [getItemCompute, hr, hg]
      · by_cases hv : utf8Valid v = true <;> simp [getItemCompute, hr, hg, hv]
    · simp [getItemCompute, hr]

theorem getKeys_state (s : SysState) (h : Nat) (pre : Option Bytes)
    (f : Option String) : (getKeysCompute s h pre f).2 = s := by
  rcases hr : regGet s.registry h with _ | db
  · simp [getKeysCompute, hr]
  · rcases f with _ | e <;> simp [getKeysCompute, hr]

theorem setItem_nextId (s : SysState) (h : Nat) (k v : Bytes) (f : Option String) :
    (setItemCompute s h k v f).2.nextId = s.nextId := by
  rcases hr : regGet s.registry h with _ | db
  · simp [setItemCompute, hr]
  · rcases f with _ | e <;> simp [setItemCompute, hr]

theorem removeItem_nextId (s : SysState) (h : Nat) (k : Bytes) (f : Option String) :
    (removeItemCompute s h k f).2.nextId = s.nextId := by
  rcases hr : regGet s.registry h with _ | db
  · simp [removeItemCompute, hr]
  · rcases f with _ | e <;> simp [removeItemCompute, hr]

theorem close_nextId (s : SysState) (h : Nat) (f : Option String) :
    (closeCompute s h f).2.nextId = s.nextId := by
  rcases hr : regGet s.registry h with _ | db <;> simp [closeCompute, hr]

theorem nextId_applyOp (s : SysState) (op : Op) (hc : isOkConnect op = false) :
    (applyOp s op).nextId = s.nextId := by
  cases op with
  | connect res p o =>
    cases res with
    | ok st => simp [isOkConnect] at hc
    | error e => rfl
  | getItem h k f => simp [applyOp, getItem_state]
  | setItem h k v f => simp [applyOp, setItem_nextId]
  | getKeys h pre f => simp [applyOp, getKeys_state]
  | removeItem h k f => simp [applyOp, removeItem_nextId]
  | close h f => simp [applyOp, close_nextId]

theorem applyOp_connect_ok (s : SysState) (st : Store) (p : Bytes)
    (o : RocksOptions) :
    applyOp s (Op.connect (Except.ok st) p o)
      = { registry :=
            regInsert s.registry s.nextId
              { store := st, db_opts := o, filepath := p },
          nextId := (s.nextId + 1) % U32 } := rfl

theorem isOkConnect_eq (op : Op) (hc : isOkConnect op = true) :
    ∃ st p o, op = Op.connect (Except.ok st) p o := by
  cases op with
  | connect res p o =>
    cases res with
    | ok st => exact ⟨st, p, o, rfl⟩
    | error e => simp [isOkConnect] at hc
  | getItem h k f => simp [isOkConnect] at hc
  | setItem h k v f => simp [isOkConnect] at hc
  | getKeys h pre f => simp [isOkConnect] at hc
  | removeItem h k f => simp [isOkConnect] at hc
  | close h f => simp [isOkConnect] at hc

theorem connectCount_cons_ok (op : Op) (tr : List Op) (hc : isOkConnect op = true) :
    connectCount (op :: tr) = connectCount tr + 1 := by
  simp [connectCount, List.filter_cons, hc]

theorem connectCount_cons_not (op : Op) (tr : List Op) (hc : isOkConnect op = false) :
    connectCount (op :: tr) = connectCount tr := by
  simp [connectCount, List.filter_cons, hc]

theorem count_zero_all (tr : List Op) (hc : connectCount tr = 0) :
    ∀ op ∈ tr, isOkConnect op = false := by
  intro op hop
  have := List.length_eq_zero.mp hc
  have := List.filter_eq_nil_iff.mp this
  simpa using this op hop

/-! ### Preservation of per-handle facts across operations -/

theorem holdsVal_applyOp (s : SysState) (h : Nat) (k v : Bytes) (op : Op)
    (ht : touchesKey h k op = false)
    (hconn : isOkConnect op = false ∨ s.nextId ≠ h)
    (hs : HoldsVal h k v s) : HoldsVal h k v (applyOp s op) := by
  obtain ⟨db, hdb, hv⟩ := hs
  cases op with
  | connect res p o =>
    cases res with
    | error e => exact ⟨db, hdb, hv⟩
    | ok st =>
      have hne : ¬ h = s.nextId := by
        rcases hconn with hc | hc
        · simp [isOkConnect] at hc
        · exact fun hx => hc hx.symm
      refine ⟨db, ?_, hv⟩
      rw [applyOp_connect_ok]
      simpa [regGet_regInsert, hne] using hdb
  | getItem h2 k2 f =>
    exact ⟨db, by simpa [applyOp, getItem_state] using hdb, hv⟩
  | getKeys h2 pre f =>
    exact ⟨db, by simpa [applyOp, getKeys_state] using hdb, hv⟩
  | setItem h2 k2 v2 f =>
    simp only [applyOp]
    rcases hr : regGet s.registry h2 with _ | db2
    · exact ⟨db, by simpa [setItemCompute, hr] using hdb, hv⟩
    · rcases f with _ | e
      · by_cases hh : h = h2
        · subst hh
          have hk2 : ¬ k = k2 := by
            simp [touchesKey] at ht
            exact fun hx => ht hx.symm
          have hdb2 : db2 = db := by
            rw [hr] at hdb; exact (Option.some.injEq _ _).mp hdb.symm |>.symm
          subst hdb2
          refine ⟨{ db2 with store := enginePut db2.store k2 v2 }, ?_, ?_⟩
          · simp [setItemCompute, hr, regGet_regUpdate, hdb]
          · simpa [engineGet_enginePut, hk2] using hv
        · exact ⟨db, by simpa [setItemCompute, hr, regGet_regUpdate, hh] using hdb, hv⟩
      · exact ⟨db, by simpa [setItemCompute, hr] using hdb, hv⟩
  | removeItem h2 k2 f =>
    simp only [applyOp]
    rcases hr : regGet s.registry h2 with _ | db2
    · exact ⟨db, by simpa [removeItemCompute, hr] using hdb, hv⟩
    · rcases f with _ | e
      · by_cases hh : h = h2
        · subst hh
          have hk2 : ¬ k = k2 := by
            simp [touchesKey] at ht
            exact fun hx => ht hx.symm
          have hdb2 : db2 = db := by
            rw [hr] at hdb; exact (Option.some.injEq _ _).mp hdb.symm |>.symm
          subst hdb2
          refine ⟨{ db2 with store := engineDelete db2.store k2 }, ?_, ?_⟩
          · simp [removeItemCompute, hr, regGet_regUpdate, hdb]
          · simpa [engineGet_engineDelete, hk2] using hv
        · exact ⟨db, by simpa [removeItemCompute, hr, regGet_regUpdate, hh] using hdb, hv⟩
      · exact ⟨db, by simpa [removeItemCompute, hr] using hdb, hv⟩
  | close h2 f =>
    have hh : ¬ h = h2 := by
      simp [touchesKey] at ht
      exact fun hx => ht hx.symm
    simp only [applyOp]
    rcases hr : regGet s.registry h2 with _ | db2
    · exact ⟨db, by simpa [closeCompute, hr] using hdb, hv⟩
    · exact ⟨db, by simpa [closeCompute, hr, regGet_regRemove, hh] using hdb, hv⟩

theorem regNone_applyOp (s : SysState) (h : Nat) (op : Op)
    (hconn : isOkConnect op = false ∨ s.nextId ≠ h)
    (hs : regGet s.registry h = none) :
    regGet (applyOp s op).registry h = none := by
  cases op with
  | connect res p o =>
    cases res with
    | error e => exact hs
    | ok st =>
      have hne : ¬ h = s.nextId := by
        rcases hconn with hc | hc
        · simp [isOkConnect] at hc
        · exact fun hx => hc hx.symm
      rw [applyOp_connect_ok]
      simpa [regGet_regInsert, hne] using hs
  | getItem h2 k2 f => simpa [applyOp, getItem_state] using hs
  | getKeys h2 pre f => simpa [applyOp, getKeys_state] using hs
  | setItem h2 k2 v2 f =>
    simp only [applyOp]
    rcases hr : regGet s.registry h2 with _ | db2
    · simpa [setItemCompute, hr] using hs
    · rcases f with _ | e
      · by_cases hh : h = h2
        · subst hh
          rw [hs] at hr
          exact Option.noConfusion hr
        · simpa [setItemCompute, hr, regGet_regUpdate, hh] using hs
      · simpa [setItemCompute, hr] using hs
  | removeItem h2 k2 f =>
    simp only [applyOp]
    rcases hr : regGet s.registry h2 with _ | db2
    · simpa [removeItemCompute, hr] using hs
    · rcases f with _ | e
      · by_cases hh : h = h2
        · subst hh
          rw [hs] at hr
          exact Option.noConfusion hr
        · simpa [removeItemCompute, hr, regGet_regUpdate, hh] using hs
      · simpa [removeItemCompute, hr] using hs
  | close h2 f =>
    simp only [applyOp]
    rcases hr : regGet s.registry h2 with _ | db2
    · simpa [closeCompute, hr] using hs
    · by_cases hh : h = h2
      · simp [closeCompute, hr, regGet_regRemove, hh]
      · simpa [closeCompute, hr, regGet_regRemove, hh] using hs

theorem holdsVal_runOps_nc (h : Nat) (k v : Bytes) (tr : List Op) :
    ∀ s : SysState, (∀ op ∈ tr, isOkConnect op = false) →
    (∀ op ∈ tr, touchesKey h k op = false) →
    HoldsVal h k v s → HoldsVal h k v (runOps s tr) := by
  induction tr with
  | nil => intro s _ _ hs; exact hs
  | cons op tr ih =>
    intro s hc ht hs
    exact ih (applyOp s op)
      (fun o ho => hc o (List.mem_cons_of_mem _ ho))
      (fun o ho => ht o (List.mem_cons_of_mem _ ho))
      (holdsVal_applyOp s h k v op (ht op (List.mem_cons_self op tr))
        (Or.inl (hc op (List.mem_cons_self op tr))) hs)

theorem holdsVal_runOps (h : Nat) (k v : Bytes) (tr : List Op) :
    ∀ s : SysState, (∀ op ∈ tr, touchesKey h k op = false) →
    h < s.nextId → s.nextId + connectCount tr ≤ U32 →
    HoldsVal h k v s → HoldsVal h k v (runOps s tr) := by
  induction tr with
  | nil => intro s _ _ _ hs; exact hs
  | cons op tr ih =>
    intro s ht hh hb hs
    have ht0 : touchesKey h k op = false := ht op (List.mem_cons_self op tr)
    have htr : ∀ o ∈ tr, touchesKey h k o = false :=
      fun o ho => ht o (List.mem_cons_of_mem _ ho)
    by_cases hc : isOkConnect op = true
    · have hne : s.nextId ≠ h := fun hx => Nat.lt_irrefl h (hx ▸ hh)
      have hs' : HoldsVal h k v (applyOp s op) :=
        holdsVal_applyOp s h k v op ht0 (Or.inr hne) hs
      obtain ⟨st, p, o, rfl⟩ := isOkConnect_eq op hc
      have hbc : s.nextId + (connectCount tr + 1) ≤ U32 := by
        rw [← connectCount_cons_ok _ tr hc]; exact hb
      by_cases hz : connectCount tr = 0
      · exact holdsVal_runOps_nc h k v tr _ (count_zero_all tr hz) htr hs'
      · have hlt : s.nextId + 1 < U32 := by omega
        have hnext : (applyOp s (Op.connect (Except.ok st) p o)).nextId
            = s.nextId + 1 := by
          rw [applyOp_connect_ok]
          exact Nat.mod_eq_of_lt hlt
        refine ih _ htr ?_ ?_ hs'
        · rw [hnext]; omega
        · rw [hnext]; omega
    · have hc' : isOkConnect op = false := by
        cases hx : isOkConnect op
        · rfl
        · exact absurd hx hc
      have hnext : (applyOp s op).nextId = s.nextId := nextId_applyOp s op hc'
      refine ih _ htr ?_ ?_
        (holdsVal_applyOp s h k v op ht0 (Or.inl hc') hs)
      · rw [hnext]; exact hh
      · rw [hnext]
        rw [connectCount_cons_not _ tr hc'] at hb
        exact hb

theorem regNone_runOps_nc (h : Nat) (tr : List Op) :
    ∀ s : SysState, (∀ op ∈ tr, isOkConnect op = false) →
    regGet s.registry h = none → regGet (runOps s tr).registry h = none := by
  induction tr with
  | nil => intro s _ hs; exact hs
  | cons op tr ih =>
    intro s hc hs
    exact ih (applyOp s op)
      (fun o ho => hc o (List.mem_cons_of_mem _ ho))
      (regNone_applyOp s h op (Or.inl (hc op (List.mem_cons_self op tr))) hs)

theorem regNone_runOps (h : Nat) (tr : List Op) :
    ∀ s : SysState, h < s.nextId → s.nextId + connectCount tr ≤ U32 →
    regGet s.registry h = none → regGet (runOps s tr).registry h = none := by
  induction tr with
  | nil => intro s _ _ hs; exact hs
  | cons op tr ih =>
    intro s hh hb hs
    by_cases hc : isOkConnect op = true
    · have hne : s.nextId ≠ h := fun hx => Nat.lt_irrefl h (hx ▸ hh)
      have hs' : regGet (applyOp s op).registry h = none :=
        regNone_applyOp s h op (Or.inr hne) hs
      obtain ⟨st, p, o, rfl⟩ := isOkConnect_eq op hc
      have hbc : s.nextId + (connectCount tr + 1) ≤ U32 := by
        rw [← connectCount_cons_ok _ tr hc]; exact hb
      by_cases hz : connectCount tr = 0
      · exact regNone_runOps_nc h tr _ (count_zero_all tr hz) hs'
      · have hlt : s.nextId + 1 < U32 := by omega
        have hnext : (applyOp s (Op.connect (Except.ok st) p o)).nextId
            = s.nextId + 1 := by
          rw [applyOp_connect_ok]
          exact Nat.mod_eq_of_lt hlt
        refine ih _ ?_ ?_ hs'
        · rw [hnext]; omega
        · rw [hnext]; omega
    · have hc' : isOkConnect op = false := by
        cases hx : isOkConnect op
        · rfl
        · exact absurd hx hc
      have hnext : (applyOp s op).nextId = s.nextId := nextId_applyOp s op hc'
      refine ih _ ?_ ?_ (regNone_applyOp s h op (Or.inl hc') hs)
      · rw [hnext]; exact hh
      · rw [hnext]
        rw [connectCount_cons_not _ tr hc'] at hb
        exact hb

/-! ### The byte order is total and transitive -/

theorem lexLt_trans : ∀ a b c : Bytes, lexLt a b = true → lexLt b c = true →
    lexLt a c = true := by
  intro a
  induction a with
  | nil =>
    intro b c h1 h2
    cases b with
    | nil => simp [lexLt] at h1
    | cons y bs =>
      cases c with
      | nil => simp [lexLt] at h2
      | cons z cs => simp [lexLt]
  | cons x as ih =>
    intro b c h1 h2
    cases b with
    | nil => simp [lexLt] at h1
    | cons y bs =>
      cases c with
      | nil => simp [lexLt] at h2
      | cons z cs =>
        simp only [lexLt] at h1 h2 ⊢
        by_cases hxy : x < y
        · by_cases hyz : y < z
          · simp [Nat.lt_trans hxy hyz]
          · by_cases hyz2 : y = z
            · subst hyz2; simp [hxy]
            · simp [hyz, hyz2] at h2
        · by_cases hxy2 : x = y
          · subst hxy2
            simp [hxy] at h1
            by_cases hxz : x < z
            · simp [hxz]
            · by_cases hxz2 : x = z
              · subst hxz2
                simp [hxz] at h2
                simp [hxz, ih bs cs h1 h2]
              · simp [hxz, hxz2] at h2
          · simp [hxy, hxy2] at h1

theorem lexLt_total : ∀ a b : Bytes, a = b ∨ lexLt a b = true ∨ lexLt b a = true := by
  intro a
  induction a with
  | nil =>
    intro b
    cases b with
    | nil => exact Or.inl rfl
    | cons y bs => exact Or.inr (Or.inl (by simp [lexLt]))
  | cons x as ih =>
    intro b
    cases b with
    | nil => exact Or.inr (Or.inr (by simp [lexLt]))
    | cons y bs =>
      rcases Nat.lt_trichotomy x y with hxy | hxy | hxy
      · exact Or.inr (Or.inl (by simp [lexLt, hxy]))
      · subst hxy
        rcases ih bs with he | hl | hl
        · exact Or.inl (by rw [he])
        · exact Or.inr (Or.inl (by simp [lexLt, hl]))
        · exact Or.inr (Or.inr (by simp [lexLt, hl]))
      · exact Or.inr (Or.inr (by simp [lexLt, hxy, Nat.lt_asymm hxy]))

theorem lexLe_total (a b : Bytes) : lexLe a b = true ∨ lexLe b a = true := by
  rcases lexLt_total a b with he | hl | hl
  · subst he; exact Or.inl (by simp [lexLe])
  · exact Or.inl (by simp [lexLe, hl])
  · exact Or.inr (by simp [lexLe, hl])

theorem lexLe_trans (a b c : Bytes) (h1 : lexLe a b = true) (h2 : lexLe b c = true) :
    lexLe a c = true := by
  by_cases hab : a = b
  · subst hab; exact h2
  · by_cases hbc : b = c
    · subst hbc; exact h1
    · simp [lexLe, hab] at h1
      simp [lexLe, hbc] at h2
      simp [lexLe, lexLt_trans a b c h1 h2]

theorem lexLt_of_lexLe_ne (a b : Bytes) (h : lexLe a b = true) (hne : a ≠ b) :
    lexLt a b = true := by
  simpa [lexLe, hne] using h

instance : IsTotal Bytes LexLeR := ⟨lexLe_total⟩

instance : IsTrans Bytes LexLeR := ⟨lexLe_trans⟩

theorem pairwise_lexLt_of_sorted {l : List Bytes}
    (hs : l.Pairwise LexLeR) (hn : l.Nodup) :
    l.Pairwise (fun a b => lexLt a b = true) :=
  (hs.and hn).imp (fun hab => lexLt_of_lexLe_ne _ _ hab.1 hab.2)

/-! ### Counter arithmetic and issued handles -/

theorem mod_succ_U32 (a : Nat) : (a % U32 + 1) % U32 = (a + 1) % U32 := by
  conv_rhs => rw [Nat.add_mod]
  norm_num [U32]

theorem connectStep_nextId (s : SysState) :
    (connectStep s).nextId = (s.nextId + 1) % U32 := rfl

theorem connectStep_iter_nextId (s : SysState) (hs : s.nextId < U32) :
    ∀ n : Nat, (connectStep^[n] s).nextId = (s.nextId + n) % U32 := by
  intro n
  induction n with
  | zero => simp [Nat.mod_eq_of_lt hs]
  | succ n ih =>
    rw [Function.iterate_succ_apply', connectStep_nextId, ih, mod_succ_U32,
      Nat.add_assoc]

theorem issuedIds_nil_of_count_zero (tr : List Op) :
    ∀ s : SysState, connectCount tr = 0 → issuedIds s tr = [] := by
  induction tr with
  | nil => intro s _; rfl
  | cons op tr ih =>
    intro s hc
    have hop : isOkConnect op = false :=
      count_zero_all _ hc op (List.mem_cons_self op tr)
    have hz : connectCount tr = 0 := by
      rw [connectCount_cons_not _ _ hop] at hc; exact hc
    simp [issuedIds, hop, ih _ hz]

theorem issuedIds_eq_range (tr : List Op) :
    ∀ s : SysState, s.nextId + connectCount tr ≤ U32 →
    issuedIds s tr = List.range' s.nextId (connectCount tr) := by
  induction tr with
  | nil => intro s _; rfl
  | cons op tr ih =>
    intro s hb
    by_cases hc : isOkConnect op = true
    · rw [connectCount_cons_ok _ _ hc] at hb ⊢
      obtain ⟨st, p, o, rfl⟩ := isOkConnect_eq op hc
      have hstep : issuedIds s (Op.connect (Except.ok st) p o :: tr)
          = s.nextId :: issuedIds (applyOp s (Op.connect (Except.ok st) p o)) tr := by
        simp [issuedIds, isOkConnect]
      by_cases hz : connectCount tr = 0
      · rw [hz, hstep, issuedIds_nil_of_count_zero tr _ hz]
        rfl
      · have hlt : s.nextId + 1 < U32 := by omega
        have hnext : (applyOp s (Op.connect (Except.ok st) p o)).nextId
            = s.nextId + 1 := by
          rw [applyOp_connect_ok]; exact Nat.mod_eq_of_lt hlt
        rw [hstep, ih _ (by rw [hnext]; omega), hnext, List.range'_succ]
    · have hc' : isOkConnect op = false := by
        cases hx : isOkConnect op
        · rfl
        · exact absurd hx hc
      have hnext := nextId_applyOp s op hc'
      rw [connectCount_cons_not _ _ hc'] at hb ⊢
      calc issuedIds s (op :: tr)
          = issuedIds (applyOp s op) tr := by simp [issuedIds, hc']
        _ = List.range' (applyOp s op).nextId (connectCount tr) :=
            ih _ (by rw [hnext]; exact hb)
        _ = List.range' s.nextId (connectCount tr) := by rw [hnext]

/-! ### Claim theorems -/

/-- C1: an operation whose handle is not present in the registry does not
fail with a typed, recoverable error: every one of `get_item`,
`set_item`, `get_keys`, `remove_item` and `close` hits
`dbs.get(&db_id).unwrap()` and raises a Rust panic (`Outcome.fatal`, a
process abort), leaving the shared state unchanged.  Handle 5 was never
issued in `s1`, whose only live handle is 0. -/
theorem c1_unknown_handle_panics :
    getItemCompute s1 5 [107] none = (Outcome.fatal "unwrap on None", s1)
    ∧ setItemCompute s1 5 [107] [118] none = (Outcome.fatal "unwrap on None", s1)
    ∧ getKeysCompute s1 5 none none = (Outcome.fatal "unwrap on None", s1)
    ∧ removeItemCompute s1 5 [107] none = (Outcome.fatal "unwrap on None", s1)
    ∧ closeCompute s1 5 none = (Outcome.fatal "unwrap on None", s1) :=
  ⟨rfl, rfl, rfl, rfl, rfl⟩

/-- C6: an engine-reported failure is surfaced as a typed error only by
`get_item` and `get_keys` (`Outcome.err`); `connect`, `set_item` and
`remove_item` call `.unwrap()` on the engine result and raise a Rust
panic (`Outcome.fatal`, a process abort) instead. -/
theorem c6_engine_errors :
    (connectCompute initState (Except.error "io") [] optsA).1 = Outcome.fatal "io"
    ∧ (setItemCompute s1 0 [97] [98] (some "io")).1 = Outcome.fatal "io"
    ∧ (removeItemCompute s1 0 [97] (some "io")).1 = Outcome.fatal "io"
    ∧ (getItemCompute s1 0 [97] (some "io")).1 = Outcome.err "io"
    ∧ (getKeysCompute s1 0 none (some "io")).1 = Outcome.err "io" :=
  ⟨rfl, rfl, rfl, rfl, rfl⟩

/-- C7: stored bytes that cannot be represented as the promised text are
not surfaced as a recoverable decode error.  `get_item` on the value
255 (invalid UTF-8) raises a Rust panic via `String::from_utf8(..).unwrap()`;
`get_keys` on the key 195 169 (UTF-8 for one accented letter) silently
decodes each byte as its own character and returns the bytes
195 131 194 169 (a different two-character string) with no error. -/
theorem c7_decode_behavior :
    (getItemCompute sBadVal 0 [107] none).1 = Outcome.fatal "from_utf8 unwrap"
    ∧ (getKeysCompute sBadKey 0 none none).1 = Outcome.ok [[195, 131, 194, 169]]
    ∧ ([195, 131, 194, 169] : Bytes) ≠ [195, 169] := by
  refine ⟨by decide, by decide, by decide⟩

/-- C8: on a live handle, `get_item` for a key that is absent from the
store (never written, or deleted since its last write) returns the
explicit not-found outcome `Outcome.ok none` with no state change; this
outcome is not an error and is distinct from every present value,
including the empty string. -/
theorem c8_get_item_not_found (s : SysState) (h : Nat) (k : Bytes)
    (db : Database)
    (hdb : regGet s.registry h = some db)
    (hk : engineGet db.store k = none) :
    getItemCompute s h k none = (Outcome.ok none, s)
    ∧ (getItemCompute (removeItemCompute s h k none).2 h k none).1
        = Outcome.ok none
    ∧ ∀ w : Bytes, (Outcome.ok (none : Option Bytes) ≠ Outcome.ok (some w)) := by
  refine ⟨by simp [getItemCompute, hdb, hk], ?_, by intro w; simp⟩
  have hreg : (removeItemCompute s h k none).2.registry
      = regUpdate s.registry h { db with store := engineDelete db.store k } := by
    simp [removeItemCompute, hdb]
  have hdb2 : regGet (removeItemCompute s h k none).2.registry h
      = some { db with store := engineDelete db.store k } := by
    rw [hreg, regGet_regUpdate]; simp [hdb]
  have hget : engineGet (engineDelete db.store k) k = none := by
    simp [engineGet_engineDelete]
  simp [getItemCompute, hdb2, hget]

/-- C8 witness: the not-found theorem applied to the concrete state `s1`
(live handle 0 over an empty store) at key 97. -/
theorem c8_get_item_not_found_witness :
    getItemCompute s1 0 [97] none = (Outcome.ok none, s1)
    ∧ (getItemCompute (removeItemCompute s1 0 [97] none).2 0 [97] none).1
        = Outcome.ok none := by
  have hc := c8_get_item_not_found s1 0 [97] dbEmpty rfl rfl
  exact ⟨hc.1, hc.2.1⟩

/-- C10: on every state, handle, and engine behavior, `get_keys` with the
empty-string prefix returns exactly the same result (outcome and state)
as `get_keys` with no prefix: every key byte string starts with the
empty byte string, so the filter keeps everything. -/
theorem c10_empty_prefix_same (s : SysState) (h : Nat) (f : Option String) :
    getKeysCompute s h (some []) f = getKeysCompute s h none f := by
  rcases hr : regGet s.registry h with _ | db
  · simp [getKeysCompute, hr]
  · rcases f with _ | e
    · have hball : (fun k => bytesStartsWith [] k) = (fun _ : Bytes => true) := by
        funext k; rfl
      simp [getKeysCompute, hr, hball, List.filter_true]
    · simp [getKeysCompute, hr]

/-- C3: on a live handle whose store has no duplicate keys, the
unfiltered `get_keys` returns the byte-per-character decoding of the
scan sequence, which contains every key currently present exactly once
(membership plus no duplicates) in strictly ascending raw-byte order;
and for every requested byte string `p`, the filtered call returns the
decoding of exactly the sub-sequence of the scan whose raw key bytes
start with `p`, a sublist of the unfiltered output in the same relative
order. -/
theorem c3_get_keys_order (s : SysState) (h : Nat) (db : Database)
    (hdb : regGet s.registry h = some db)
    (hwf : (db.store.map (fun e => e.1)).Nodup) :
    (getKeysCompute s h none none).1
        = Outcome.ok ((scanKeys db.store).map latin1Decode)
    ∧ (∀ k, k ∈ scanKeys db.store ↔ k ∈ db.store.map (fun e => e.1))
    ∧ (scanKeys db.store).Nodup
    ∧ (scanKeys db.store).Pairwise (fun a b => lexLt a b = true)
    ∧ ∀ p, (getKeysCompute s h (some p) none).1
          = Outcome.ok (((scanKeys db.store).filter
              (fun k => bytesStartsWith p k)).map latin1Decode)
        ∧ (((scanKeys db.store).filter (fun k => bytesStartsWith p k)).map
            latin1Decode).Sublist ((scanKeys db.store).map latin1Decode)
        ∧ ∀ k, k ∈ (scanKeys db.store).filter (fun k => bytesStartsWith p k)
            ↔ (k ∈ scanKeys db.store ∧ bytesStartsWith p k = true) := by
  have hperm := List.perm_insertionSort LexLeR (db.store.map (fun e => e.1))
  have hnodup : (scanKeys db.store).Nodup := by
    unfold scanKeys
    exact hperm.nodup_iff.mpr hwf
  refine ⟨?_, ?_, hnodup, ?_, ?_⟩
  · have hball : (fun k => bytesStartsWith [] k) = (fun _ : Bytes => true) := by
      funext k; rfl
    simp [getKeysCompute, hdb, hball, List.filter_true]
  · intro k
    unfold scanKeys
    exact hperm.mem_iff
  · unfold scanKeys
    refine pairwise_lexLt_of_sorted
      (List.sorted_insertionSort LexLeR
        (List.map (fun e : Bytes × Bytes => e.1) db.store)) ?_
    unfold scanKeys at hnodup
    exact hnodup
  · intro p
    refine ⟨by simp [getKeysCompute, hdb], ?_, ?_⟩
    · exact List.Sublist.map latin1Decode (List.filter_sublist _)
    · intro k
      simp [List.mem_filter]

/-- C3 witness: the ordering theorem applied to `sTwo`, whose store holds
keys 98 and 97 out of order; the unfiltered call returns them sorted and
the filter for the byte string 97 keeps exactly the first. -/
theorem c3_get_keys_order_witness :
    (getKeysCompute sTwo 0 none none).1 = Outcome.ok [[97], [98]]
    ∧ (getKeysCompute sTwo 0 (some [97]) none).1 = Outcome.ok [[97]] := by
  have hc := c3_get_keys_order sTwo 0 dbTwo rfl (by decide)
  constructor
  · rw [hc.1]; decide
  · rw [(hc.2.2.2.2 [97]).1]; decide

/-- C2: a successful `set_item` of a UTF-8-valid value `v` at key `k` of
live handle `h`, followed by any operations that do not write to key `k`
of `h`, do not close `h`, and whose successful connects do not wrap the
32-bit counter, followed by `get_item` on the same handle and key,
returns exactly `v`. -/
theorem c2_write_then_read (s : SysState) (h : Nat) (k v : Bytes)
    (db : Database) (tr : List Op)
    (hv : utf8Valid v = true)
    (hdb : regGet s.registry h = some db)
    (hh : h < s.nextId)
    (hb : s.nextId + connectCount tr ≤ U32)
    (ht : ∀ op ∈ tr, touchesKey h k op = false) :
    (setItemCompute s h k v none).1 = Outcome.ok ()
    ∧ (getItemCompute (runOps (setItemCompute s h k v none).2 tr) h k none).1
        = Outcome.ok (some v) := by
  have hset1 : (setItemCompute s h k v none).1 = Outcome.ok () := by
    simp [setItemCompute, hdb]
  have hreg : (setItemCompute s h k v none).2.registry
      = regUpdate s.registry h { db with store := enginePut db.store k v } := by
    simp [setItemCompute, hdb]
  have hnid : (setItemCompute s h k v none).2.nextId = s.nextId :=
    setItem_nextId s h k v none
  have hJ : HoldsVal h k v (setItemCompute s h k v none).2 := by
    refine ⟨{ db with store := enginePut db.store k v }, ?_, ?_⟩
    · rw [hreg, regGet_regUpdate]
      simp [hdb]
    · simp [engineGet_enginePut]
  obtain ⟨db2, hdb2, hv2⟩ :=
    holdsVal_runOps h k v tr _ ht (by rw [hnid]; exact hh)
      (by rw [hnid]; exact hb) hJ
  exact ⟨hset1, by simp [getItemCompute, hdb2, hv2, hv]⟩

/-- C2 witness: writing the value 104 105 at key 97 of handle 0 in `s1`,
then writing a different key of the same handle, then reading key 97
returns 104 105. -/
theorem c2_write_then_read_witness :
    (getItemCompute (runOps (setItemCompute s1 0 [97] [104, 105] none).2
        trOtherKey) 0 [97] none).1 = Outcome.ok (some [104, 105]) :=
  (c2_write_then_read s1 0 [97] [104, 105] dbEmpty trOtherKey
    (by decide) rfl (by decide) (by decide) (by decide)).2

/-- C9: the four data operations never change the handle-to-instance
mapping: `get_item` and `get_keys` leave the whole state untouched;
`set_item` and `remove_item` keep the handle set, the counter, and every
other handle's entry unchanged (only the addressed instance's store
contents change).  A failed `connect` changes nothing; a successful
`connect` at a fresh counter value inserts exactly one entry; `close`
removes exactly the entries keyed by its handle and nothing else.
In the embedding each operation is a single atomic transition of the
shared state, mirroring the fact that the source holds the one registry
lock for the whole `compute` call. -/
theorem c9_registry_mutation (s : SysState) (h h2 : Nat) (k v : Bytes)
    (pre : Option Bytes) (f : Option String) (e : String) (stO : Store)
    (p : Bytes) (o : RocksOptions) :
    (getItemCompute s h k f).2 = s
    ∧ (getKeysCompute s h pre f).2 = s
    ∧ regKeys (setItemCompute s h k v f).2 = regKeys s
    ∧ (setItemCompute s h k v f).2.nextId = s.nextId
    ∧ regKeys (removeItemCompute s h k f).2 = regKeys s
    ∧ (removeItemCompute s h k f).2.nextId = s.nextId
    ∧ (h2 ≠ h →
        regGet (setItemCompute s h k v f).2.registry h2 = regGet s.registry h2)
    ∧ (h2 ≠ h →
        regGet (removeItemCompute s h k f).2.registry h2 = regGet s.registry h2)
    ∧ (connectCompute s (Except.error e) p o).2 = s
    ∧ (regGet s.registry s.nextId = none →
        (connectCompute s (Except.ok stO) p o).2.registry
          = (s.nextId, { store := stO, db_opts := o, filepath := p })
              :: s.registry)
    ∧ (closeCompute s h f).2.registry = regRemove s.registry h
    ∧ (closeCompute s h f).2.nextId = s.nextId := by
  refine ⟨getItem_state s h k f, getKeys_state s h pre f, ?_,
    setItem_nextId s h k v f, ?_, removeItem_nextId s h k f, ?_, ?_, rfl,
    ?_, ?_, close_nextId s h f⟩
  · rcases hr : regGet s.registry h with _ | db
    · simp [setItemCompute, hr]
    · rcases f with _ | e2
      · simp [setItemCompute, hr, regKeys, regKeys_regUpdate]
      · simp [setItemCompute, hr]
  · rcases hr : regGet s.registry h with _ | db
    · simp [removeItemCompute, hr]
    · rcases f with _ | e2
      · simp [removeItemCompute, hr, regKeys, regKeys_regUpdate]
      · simp [removeItemCompute, hr]
  · intro hne
    rcases hr : regGet s.registry h with _ | db
    · simp [setItemCompute, hr]
    · rcases f with _ | e2
      · simp [setItemCompute, hr, regGet_regUpdate, hne]
      · simp [setItemCompute, hr]
  · intro hne
    rcases hr : regGet s.registry h with _ | db
    · simp [removeItemCompute, hr]
    · rcases f with _ | e2
      · simp [removeItemCompute, hr, regGet_regUpdate, hne]
      · simp [removeItemCompute, hr]
  · intro hfresh
    simp [connectCompute, regInsert, regRemove_of_none _ _ hfresh]
  · rcases hr : regGet s.registry h with _ | db
    · simp [closeCompute, hr, regRemove_of_none _ _ hr]
    · simp [closeCompute, hr]

/-- C9 witness: the frame theorem applied at the concrete state `s1`,
handle 0, spectator handle 1, key 97 and value 98. -/
theorem c9_registry_mutation_witness :
    (getItemCompute s1 0 [97] none).2 = s1
    ∧ regKeys (setItemCompute s1 0 [97] [98] none).2 = regKeys s1
    ∧ (closeCompute s1 0 none).2.registry = regRemove s1.registry 0 := by
  have hc := c9_registry_mutation s1 0 1 [97] [98] none none "io" [] [] optsA
  exact ⟨hc.1, hc.2.2.1, hc.2.2.2.2.2.2.2.2.2.2.1⟩

/-- C4 counterexample: handle issuance is not strictly monotonic and not
injective.  The first successful `connect` from the initial state
returns handle 0, and after 4294967296 further successful connects the
32-bit `fetch_add` counter has wrapped, so the next successful `connect`
returns handle 0 again (not a value strictly greater than every
previously issued handle, and a reuse of an issued value). -/
theorem c4_counterexample :
    (connectCompute initState (Except.ok []) [] optsA).1 = Outcome.ok 0
    ∧ (connectCompute (connectStep^[U32] initState) (Except.ok []) [] optsA).1
        = Outcome.ok 0 := by
  constructor
  · rfl
  · have h1 : (connectStep^[U32] initState).nextId = 0 := by
      have h2 := connectStep_iter_nextId initState (by decide) U32
      rw [h2]
      norm_num [initState, U32]
    simp [connectCompute, h1]

/-- C4 amended: as long as at most 2 to the 32nd successful connects occur,
handle issuance is strictly monotonic and injective.  In any operation
sequence run from the initial state whose successful connects do not
wrap the 32-bit counter, the issued handles are 0, 1, 2, and so on in
order, and every later handle is strictly greater than every earlier one
(so no handle is ever reused, even after `close` removes its entry). -/
theorem c4_monotonic_bounded (tr : List Op) (hb : connectCount tr ≤ U32) :
    issuedIds initState tr = List.range (connectCount tr)
    ∧ (issuedIds initState tr).Pairwise (· < ·) := by
  have h0 : initState.nextId = 0 := rfl
  have h := issuedIds_eq_range tr initState (by rw [h0]; omega)
  rw [h, h0, ← List.range_eq_range']
  exact ⟨rfl, List.pairwise_lt_range _⟩

/-- C4 witness: the bounded monotonicity theorem applied to the concrete
sequence connect, close 0, connect: the issued handles are 0 and 1, in
strictly increasing order, with no reuse of 0 after its close. -/
theorem c4_monotonic_bounded_witness :
    issuedIds initState trConnCloseConn = [0, 1]
    ∧ (issuedIds initState trConnCloseConn).Pairwise (· < ·) := by
  have hc := c4_monotonic_bounded trConnCloseConn (by decide)
  refine ⟨?_, hc.2⟩
  rw [hc.1]
  decide

/-- C5 counterexample: a closed handle is not permanently invalid.  In
`sClosed` the handle 0 has been closed and no longer resolves, but after
4294967296 further successful connects the wrapped counter reissues 0,
and the old handle value resolves to a new, different instance. -/
theorem c5_counterexample :
    regGet sClosed.registry 0 = none
    ∧ regGet ((connectStep^[U32] sClosed).registry) 0
        = some { store := [], db_opts := optsA, filepath := [] } := by
  constructor
  · rfl
  · have hiter : connectStep^[U32] sClosed
        = connectStep (connectStep^[U32 - 1] sClosed) := by
      have hsplit : U32 = (U32 - 1) + 1 := by norm_num [U32]
      rw [hsplit, Function.iterate_succ_apply']
      norm_num
    have hn : (connectStep^[U32 - 1] sClosed).nextId = 0 := by
      have h2 := connectStep_iter_nextId sClosed (by decide) (U32 - 1)
      rw [h2]
      have h1 : sClosed.nextId = 1 := rfl
      rw [h1]
      norm_num [U32]
    rw [hiter]
    simp [connectStep, connectCompute, regGet_regInsert, hn]

/-- C5 amended: `close` on a live handle succeeds and removes the
instance from the registry whether the underlying destroy call succeeded
or failed (the destroy outcome is universally quantified and ignored);
immediately afterwards the handle no longer resolves, and it stays
unresolved across any further operations whose successful connects do
not wrap the 32-bit counter. -/
theorem c5_close_removes (s : SysState) (h : Nat) (db : Database)
    (dRes : Option String) (tr : List Op)
    (hdb : regGet s.registry h = some db)
    (hh : h < s.nextId)
    (hb : s.nextId + connectCount tr ≤ U32) :
    (closeCompute s h dRes).1 = Outcome.ok ()
    ∧ (closeCompute s h dRes).2.registry = regRemove s.registry h
    ∧ regGet (closeCompute s h dRes).2.registry h = none
    ∧ regGet (runOps (closeCompute s h dRes).2 tr).registry h = none := by
  have h1 : (closeCompute s h dRes).1 = Outcome.ok () := by
    simp [closeCompute, hdb]
  have h2 : (closeCompute s h dRes).2.registry = regRemove s.registry h := by
    simp [closeCompute, hdb]
  have h3 : (closeCompute s h dRes).2.nextId = s.nextId := close_nextId s h dRes
  have h4 : regGet (closeCompute s h dRes).2.registry h = none := by
    rw [h2, regGet_regRemove]
    simp
  exact ⟨h1, h2, h4,
    regNone_runOps h tr _ (by rw [h3]; exact hh) (by rw [h3]; exact hb) h4⟩

/-- C5 witness: closing live handle 0 of `s1` with a failing destroy
call still returns success and removes the entry; the handle stays
unresolved after one further connect (which issues handle 1, not 0). -/
theorem c5_close_removes_witness :
    (closeCompute s1 0 (some "destroy failed")).1 = Outcome.ok ()
    ∧ regGet (closeCompute s1 0 (some "destroy failed")).2.registry 0 = none
    ∧ regGet (runOps (closeCompute s1 0 (some "destroy failed")).2
        trOneConn).registry 0 = none := by
  have hc := c5_close_removes s1 0 dbEmpty (some "destroy failed") trOneConn
    rfl (by decide) (by decide)
  exact ⟨hc.1, hc.2.2.1, hc.2.2.2⟩
